import Mathlib

/-!
Verification of the Dayflow HRMS core logic against its specification.

The definitions below are a shallow embedding of the Python/Django source
(`hrms/models.py`, `hrms/views.py`, `hrms/forms.py`):
relational tables become lists of records, nullable columns become `Option`,
`DecimalField` amounts become `Rat`, dates become day numbers (`Nat`) and
times-of-day become seconds since midnight (`Nat`).  Django's
`update_or_create` / `get_or_create` are modelled by explicit list
operations.  Status columns keep the source's string encodings
("PENDING", "APPROVED", "PRESENT", "LEAVE", ...).
-/

/-- Django `Model.objects.update_or_create`: if some row satisfies `hit`,
apply `upd` to every such row (the table's unique constraint guarantees at
most one); otherwise append the freshly created row `mk`. -/
def update_or_create (hit : α → Bool) (upd : α → α) (mk : α) (db : List α) : List α :=
  if db.any hit then db.map (fun r => if hit r then upd r else r) else db ++ [mk]

/-- Number of rows of `db` satisfying `q`. -/
def countBy (q : α → Bool) (db : List α) : Nat := (db.filter q).length

/-! ## Payroll (`hrms/models.py`, class `Payroll`) -/

/-- Embedding of the `Payroll` model: (employee, month, year) key plus the
four `DecimalField` amounts. -/
structure Payroll where
  employee : Nat
  month : Nat
  year : Nat
  base_salary : Rat
  allowances : Rat
  deductions : Rat
  net_salary : Rat
  deriving Repr, DecidableEq

/-- `Payroll.calculate_net_salary`: overwrite `net_salary` with
`base_salary + allowances - deductions`. -/
def Payroll.calculate_net_salary (p : Payroll) : Payroll :=
  { p with net_salary := p.base_salary + p.allowances - p.deductions }

/-- `Payroll.save`: the override calls `calculate_net_salary` before the
actual row write, so every persisted row has the derived net salary. -/
def Payroll.save (p : Payroll) : Payroll :=
  p.calculate_net_salary

/-- Key predicate for the `unique_together ['employee', 'month', 'year']`
constraint. -/
def Payroll.keyIs (emp m y : Nat) (p : Payroll) : Bool :=
  p.employee == emp && p.month == m && p.year == y

/-- The `Payroll.objects.update_or_create(employee=…, month=…, year=…,
defaults={base_salary, allowances, deductions})` call of
`admin_generate_payroll_view`: both the update path and the create path go
through `Payroll.save`. -/
def payrollUpsert (emp m y : Nat) (b al de : Rat) (db : List Payroll) : List Payroll :=
  update_or_create (Payroll.keyIs emp m y)
    (fun p => Payroll.save { p with base_salary := b, allowances := al, deductions := de })
    (Payroll.save { employee := emp, month := m, year := y,
                    base_salary := b, allowances := al, deductions := de, net_salary := 0 })
    db

/-- The net-salary invariant of the spec's data model. -/
def Payroll.netInvariant (p : Payroll) : Prop :=
  p.net_salary = p.base_salary + p.allowances - p.deductions

instance (p : Payroll) : Decidable p.netInvariant := by
  unfold Payroll.netInvariant; infer_instance

/-! ## Attendance (`hrms/models.py`, class `Attendance`) -/

/-- Embedding of the `Attendance` model: (employee, date) key, nullable
check-in / check-out times (seconds since midnight) and a status string. -/
structure AttendanceRec where
  employee : Nat
  date : Nat
  check_in_time : Option Nat
  check_out_time : Option Nat
  status : String
  deriving Repr, DecidableEq

/-- Key predicate for the `unique_together ['employee', 'date']` constraint. -/
def AttendanceRec.keyIs (emp d : Nat) (r : AttendanceRec) : Bool :=
  r.employee == emp && r.date == d

/-! ## Leave workflow (`hrms/models.py` class `LeaveRequest`,
`hrms/views.py` `apply_leave_view` / `approve_leave_view`,
`hrms/forms.py` class `LeaveRequestForm`) -/

/-- Embedding of the `LeaveRequest` model. -/
structure LeaveReq where
  employee : Nat
  leave_type : String
  start_date : Nat
  end_date : Nat
  remarks : String
  status : String
  admin_comments : String
  approved_by : Option Nat
  deriving Repr, DecidableEq

/-- Data a leave-application POST carries (the bound fields of
`LeaveRequestForm`: leave_type, start_date, end_date, remarks). -/
structure LeaveFormData where
  leave_type : String
  start_date : Nat
  end_date : Nat
  remarks : String
  deriving Repr, DecidableEq

/-- Validation performed by `LeaveRequestForm.is_valid()`.  The form declares
no `clean` method and no extra validators, so the only model-level content
validated is that `leave_type` is one of the declared choices; the date
fields are only required to parse (already guaranteed by the `Nat` type
here).  In particular there is no comparison of `start_date` with
`end_date`. -/
def leaveFormIsValid (d : LeaveFormData) : Bool :=
  d.leave_type == "PAID" || d.leave_type == "SICK" || d.leave_type == "UNPAID"

/-- `apply_leave_view` (POST branch): if the form validates, persist a new
`LeaveRequest` for the requesting employee with status `PENDING`; otherwise
leave the table untouched and re-render the form. -/
def apply_leave (emp : Nat) (d : LeaveFormData) (db : List LeaveReq) : List LeaveReq :=
  if leaveFormIsValid d then
    db ++ [{ employee := emp, leave_type := d.leave_type, start_date := d.start_date,
             end_date := d.end_date, remarks := d.remarks, status := "PENDING",
             admin_comments := "", approved_by := none }]
  else db

/-- The `Attendance.objects.update_or_create(employee=…, date=…,
defaults={status: LEAVE})` call inside `approve_leave_view`: an existing row
keeps its check-in/check-out data but has its status overwritten to `LEAVE`;
a missing row is created with empty times and status `LEAVE`. -/
def attMarkLeave (emp d : Nat) (db : List AttendanceRec) : List AttendanceRec :=
  update_or_create (AttendanceRec.keyIs emp d)
    (fun r => { r with status := "LEAVE" })
    { employee := emp, date := d, check_in_time := none,
      check_out_time := none, status := "LEAVE" }
    db

/-- Iteration core of the `while current_date <= leave_request.end_date`
loop of `approve_leave_view`: `k` is the number of remaining iterations,
`cur` the current date. -/
def markLeaveGo (emp : Nat) : Nat → Nat → List AttendanceRec → List AttendanceRec
  | 0, _, db => db
  | k + 1, cur, db => markLeaveGo emp k (cur + 1) (attMarkLeave emp cur db)

/-- The `while current_date <= leave_request.end_date` loop of
`approve_leave_view`: starting at `cur`, it runs once per date of
`[cur, fin]`, i.e. `fin + 1 - cur` times. -/
def markLeaveRange (emp cur fin : Nat) (db : List AttendanceRec) : List AttendanceRec :=
  markLeaveGo emp (fin + 1 - cur) cur db

/-- `approve_leave_view` (POST branch): unconditionally set the request to
`APPROVED`, record approver and comments, then upsert a `LEAVE` attendance
row for every date in `[start_date, end_date]`.  The source never inspects
the request's current status. -/
def approve_leave (req : LeaveReq) (approver : Nat) (comments : String)
    (db : List AttendanceRec) : LeaveReq × List AttendanceRec :=
  let req' := { req with
    status := "APPROVED", approved_by := some approver,
    admin_comments := comments }
  (req', markLeaveRange req.employee req.start_date req.end_date db)

/-! ## Check-in / check-out (`hrms/views.py` `check_in_view` /
`check_out_view`, `hrms/models.py` `Attendance.calculate_hours_worked`) -/

/-- Outcome of a check-in attempt. -/
inductive CheckInResult
  | alreadyCheckedIn
  | success
  deriving Repr, DecidableEq

/-- Outcome of a check-out attempt. -/
inductive CheckOutResult
  | notCheckedIn
  | alreadyCheckedOut
  | success
  deriving Repr, DecidableEq

/-- Python's `round(x, 2)` applied to an exact rational: round half to even
at the second decimal place. -/
def roundHalfEven (q : Rat) : Int :=
  let f := ⌊q⌋
  let r := q - f
  if r < 1 / 2 then f
  else if 1 / 2 < r then f + 1
  else if f % 2 = 0 then f else f + 1

/-- Rounding a rational to two decimal places, Python `round(·, 2)`. -/
def round2 (q : Rat) : Rat := (roundHalfEven (q * 100) : Rat) / 100

/-- `Attendance.calculate_hours_worked`: with both times set, the elapsed
seconds divided by 3600, rounded to two decimals (`datetime.combine` uses
the same date on both sides, so the difference is the plain time-of-day
difference); otherwise 0. -/
def calculate_hours_worked (a : AttendanceRec) : Rat :=
  match a.check_in_time, a.check_out_time with
  | some ci, some co => round2 (((co : Rat) - (ci : Rat)) / 3600)
  | _, _ => 0

/-- The status ladder of `check_out_view`: `>= 8` hours `PRESENT`,
`>= 4` hours `HALF_DAY`, otherwise `ABSENT`. -/
def checkOutStatus (hours : Rat) : String :=
  if 8 ≤ hours then "PRESENT" else if 4 ≤ hours then "HALF_DAY" else "ABSENT"

/-- `check_in_view` (POST branch): `get_or_create` on (employee, today) with
defaults check-in = now / status `PRESENT`; a pre-existing row that already
has a check-in time yields the already-checked-in warning, any other case
(fresh row, or an existing row without a check-in time, e.g. one created by
leave approval) ends with check-in = now and status `PRESENT`. -/
def check_in_view (emp today nowT : Nat) (db : List AttendanceRec) :
    CheckInResult × List AttendanceRec :=
  match db.find? (AttendanceRec.keyIs emp today) with
  | some a =>
      if a.check_in_time.isSome then (.alreadyCheckedIn, db)
      else (.success,
        db.map fun r =>
          if AttendanceRec.keyIs emp today r then
            { r with check_in_time := some nowT, status := "PRESENT" }
          else r)
  | none =>
      (.success, db ++ [{ employee := emp, date := today, check_in_time := some nowT,
                          check_out_time := none, status := "PRESENT" }])

/-- `check_out_view` (POST branch): missing row or missing check-in time
means "please check in first"; an existing check-out time means "already
checked out"; otherwise set check-out = now, recompute the worked hours and
derive the status from them. -/
def check_out_view (emp today nowT : Nat) (db : List AttendanceRec) :
    CheckOutResult × List AttendanceRec :=
  match db.find? (AttendanceRec.keyIs emp today) with
  | none => (.notCheckedIn, db)
  | some a =>
      if a.check_in_time.isNone then (.notCheckedIn, db)
      else if a.check_out_time.isSome then (.alreadyCheckedOut, db)
      else
        (.success, db.map fun r =>
          if AttendanceRec.keyIs emp today r then
            let a1 := { r with check_out_time := some nowT }
            { a1 with status := checkOutStatus (calculate_hours_worked a1) }
          else r)

/-- Attendance row of the spec's worked examples: checked in at 09:00
(32400 s), not yet checked out. -/
def rowCheckedIn0900 : AttendanceRec :=
  { employee := 1, date := 20, check_in_time := some 32400,
    check_out_time := none, status := "PRESENT" }

/-- A `LEAVE` row without a check-in time, as produced by leave approval. -/
def rowLeaveNoCheckIn : AttendanceRec :=
  { employee := 1, date := 20, check_in_time := none,
    check_out_time := none, status := "LEAVE" }

/-! ## Two-phase login (`hrms/views.py` `login_view` / `otp_verify_view`) -/

/-- Outcome of the OTP-confirmation phase. -/
inductive OtpResult
  | noPendingSession
  | expired
  | mismatch
  | success
  deriving Repr, DecidableEq

/-- Outcome of the credential phase of `login_view`. -/
inductive LoginResult
  | invalidCredentials
  | otpSent
  deriving Repr, DecidableEq

/-- The user row's `otp` / `otp_expiry` columns, the session's `otp_user_id`
slot, and whether a full session is established. -/
structure OtpState where
  otp : Option String
  otp_expiry : Option Nat
  otp_user_id : Option Nat
  logged_in : Bool
  deriving Repr, DecidableEq

/-- Python truthiness of the `user.otp` column in
`if user.otp and user.otp_expiry and …`: `None` and `""` are falsy. -/
def otpTruthy : Option String → Bool
  | none => false
  | some s => s.length != 0

/-- `otp_verify_view` (POST branch): no pending `otp_user_id` redirects to
login; with a pending id, the gate `user.otp and user.otp_expiry and
now <= user.otp_expiry` decides between the expiry failure (which deletes
the session slot but not the stored code) and the comparison
`user.otp == entered_otp`, which on success clears code, expiry and session
slot and logs the user in, and on mismatch changes nothing. -/
def otp_verify_view (st : OtpState) (now : Nat) (entered : String) :
    OtpResult × OtpState :=
  match st.otp_user_id with
  | none => (OtpResult.noPendingSession, st)
  | some _ =>
      if otpTruthy st.otp && st.otp_expiry.isSome
          && decide (now ≤ st.otp_expiry.getD 0) then
        if st.otp == some entered then
          (OtpResult.success,
            { otp := none, otp_expiry := none, otp_user_id := none, logged_in := true })
        else (OtpResult.mismatch, st)
      else
        (OtpResult.expired, { st with otp_user_id := none })

/-- Decimal digit character for `n % 10`. -/
def otpDigit (n : Nat) : Char := Char.ofNat (48 + n % 10)

/-- Modelled from the spec: `login_view` calls
`authenticated_user.generate_otp()`, but neither `generate_otp` nor the
`otp` / `otp_expiry` columns it writes appear in the provided source
(`CustomUser` in `hrms/models.py` declares neither).  Per the spec it
returns a fixed-width 6-digit numeric code; `seed` stands for the RNG
draw. -/
def generate_otp (seed : Nat) : String :=
  String.mk [otpDigit (seed / 100000), otpDigit (seed / 10000), otpDigit (seed / 1000),
             otpDigit (seed / 100), otpDigit (seed / 10), otpDigit seed]

/-- User columns, session slot and mail outbox touched by `login_view`. -/
structure LoginState where
  user_otp : Option String
  user_otp_expiry : Option Nat
  session_otp_user_id : Option Nat
  outbox : List (String × String)
  deriving Repr, DecidableEq

/-- `login_view` (POST branch, user found by email): failed authentication
reports invalid credentials and changes nothing; on success `generate_otp()`
stores a fresh code on the user with expiry now + 10 minutes (600 s,
modelled from the spec alongside `generate_otp`), the user id goes into the
session's `otp_user_id` slot, and the code is mailed to the user's
registered email. -/
def login_view (uid : Nat) (email : String) (authenticated : Bool) (seed now : Nat)
    (st : LoginState) : LoginResult × LoginState :=
  if authenticated then
    let otp := generate_otp seed
    (LoginResult.otpSent,
      { user_otp := some otp, user_otp_expiry := some (now + 600),
        session_otp_user_id := some uid,
        outbox := st.outbox ++ [(email,
          "Your OTP for logging into Dayflow HRMS is: " ++ otp
            ++ "\n\nThis code will expire in 10 minutes.")] })
  else (LoginResult.invalidCredentials, st)

/-! ## Employee-ID allocation (`hrms/views.py`, `add_user_view`) -/

/-- Python `s.startswith(p)`, expressed on the character lists. -/
def strStartsWith (s p : String) : Bool := p.data.isPrefixOf s.data

/-- Python `s.strip()`: remove leading and trailing whitespace. -/
def strTrim (s : String) : String :=
  String.mk (((s.data.dropWhile Char.isWhitespace).reverse.dropWhile
    Char.isWhitespace).reverse)

/-- Python `str.zfill(w)`: left-pad with zeros to width `w`, keeping a
leading sign in front of the padding. -/
def pyZfill (s : String) (w : Nat) : String :=
  if w ≤ s.length then s
  else
    let pad := String.mk (List.replicate (w - s.length) '0')
    if strStartsWith s "-" || strStartsWith s "+" then
      s.take 1 ++ pad ++ s.drop 1
    else pad ++ s

/-- Python `int(s)` on the decimal notation relevant to ID suffixes:
optional surrounding whitespace, an optional sign, then at least one ASCII
digit; anything else raises `ValueError` (`none` here). -/
def parsePyInt (s : String) : Option Int :=
  let t := strTrim s
  let sd :=
    if strStartsWith t "-" then (true, t.drop 1)
    else if strStartsWith t "+" then (false, t.drop 1)
    else (false, t)
  if sd.2.length ≠ 0 ∧ sd.2.data.all Char.isDigit then
    let n : Nat := sd.2.data.foldl (fun acc c => acc * 10 + (c.toNat - 48)) 0
    some (if sd.1 then -(n : Int) else (n : Int))
  else none

/-- Maximum of a list of strings under the lexicographic order, `none` for
the empty list: `order_by('-employee_id').first()` of `add_user_view`,
applied to the ids sharing the wanted prefix. -/
def maxString : List String → Option String
  | [] => none
  | s :: t =>
      match maxString t with
      | none => some s
      | some m => if m < s then some s else some m

/-- The role-to-prefix mapping of `add_user_view`:
`'HR' if role == 'ADMIN' else 'E'`. -/
def rolePfx (role : String) : String :=
  if role == "ADMIN" then "HR" else "E"

/-- `add_user_view`'s ID generation: take the lexicographically greatest
existing id with the role's prefix, parse its suffix as an int and add one,
falling back to 1 when no such id exists or the parse fails, and produce
prefix + the new number zero-filled to width 5. -/
def allocate_employee_id (ids : List String) (role : String) : String :=
  let pfx := rolePfx role
  let last_user := maxString (ids.filter (fun s => strStartsWith s pfx))
  let new_number : Int :=
    match last_user with
    | none => 1
    | some lid =>
        match parsePyInt (lid.drop pfx.length) with
        | some n => n + 1
        | none => 1
  pfx ++ pyZfill (toString new_number) 5

/-! ## Payroll generation (`hrms/views.py`, `admin_generate_payroll_view`) -/

/-- The `salary_structure` JSON blob of `EmployeeProfile`, reduced to the
three keys the generator reads; `none` models an absent key.  The skip test
`not salary_structure or 'base_salary' not in salary_structure` is
equivalent to `base_salary` being absent, since an empty dict also has no
`base_salary` key. -/
structure SalaryStructure where
  base_salary : Option Rat
  allowances : Option Rat
  deductions : Option Rat
  deriving Repr, DecidableEq

/-- An employee row as the generator sees it: primary key, role and the
profile's salary structure. -/
structure Employee where
  id : Nat
  role : String
  salary_structure : SalaryStructure
  deriving Repr, DecidableEq

/-- Body of the generation loop for one employee: skip when `base_salary`
is absent, otherwise upsert the (employee, month, year) row with the
amounts `salary_structure.get(…, 0)`. -/
def generateFor (m y : Nat) (db : List Payroll) (e : Employee) : List Payroll :=
  match e.salary_structure.base_salary with
  | none => db
  | some b =>
      payrollUpsert e.id m y b (e.salary_structure.allowances.getD 0)
        (e.salary_structure.deductions.getD 0) db

/-- `admin_generate_payroll_view` (POST): iterate over the users with role
`EMPLOYEE`, skipping those without a `base_salary`, upserting one payroll
row per remaining employee for the chosen period. -/
def admin_generate_payroll (emps : List Employee) (m y : Nat) (db : List Payroll) :
    List Payroll :=
  (emps.filter (fun e => e.role == "EMPLOYEE")).foldl (generateFor m y) db

/-- Employee 1 with a full salary structure. -/
def empWithSalary : Employee :=
  { id := 1, role := "EMPLOYEE",
    salary_structure := { base_salary := some 1000, allowances := some 100,
                          deductions := some 50 } }

/-- Employee 1 after an admin raised the base salary. -/
def empWithRaisedSalary : Employee :=
  { id := 1, role := "EMPLOYEE",
    salary_structure := { base_salary := some 2000, allowances := some 100,
                          deductions := some 50 } }

/-- Employee 2 whose salary structure lacks `base_salary`. -/
def empNoSalary : Employee :=
  { id := 2, role := "EMPLOYEE",
    salary_structure := { base_salary := none, allowances := some 5,
                          deductions := none } }

/-- A pending-login state: user 5 holds code "123456" expiring at 1000. -/
def stOtpPending : OtpState :=
  { otp := some "123456", otp_expiry := some 1000, otp_user_id := some 5,
    logged_in := false }

/-- Empty login-phase state. -/
def loginStEmpty : LoginState :=
  { user_otp := none, user_otp_expiry := none, session_otp_user_id := none,
    outbox := [] }

/-- Concrete pending leave request over `[10, 12]` used to instantiate the
approval theorems. -/
def reqPending : LeaveReq :=
  { employee := 1, leave_type := "PAID", start_date := 10, end_date := 12,
    remarks := "trip", status := "PENDING", admin_comments := "", approved_by := none }

/-- Concrete already-approved leave request over `[10, 12]`. -/
def reqDecided : LeaveReq :=
  { employee := 1, leave_type := "PAID", start_date := 10, end_date := 12,
    remarks := "trip", status := "APPROVED", admin_comments := "old", approved_by := some 7 }

/-- A one-row attendance table: employee 1 already checked in as `PRESENT`
on date 11 (the middle of the `[10, 12]` range). -/
def dbPresent11 : List AttendanceRec :=
  [{ employee := 1, date := 11, check_in_time := some 32400,
     check_out_time := none, status := "PRESENT" }]

theorem countBy_eq_countP (q : α → Bool) (db : List α) : countBy q db = db.countP q :=
  (List.countP_eq_length_filter q db).symm

theorem countP_pointwise {p q : α → Bool} :
    ∀ {l : List α}, (∀ x ∈ l, p x = q x) → l.countP p = l.countP q := by
  intro l
  induction l with
  | nil => intro _; rfl
  | cons a t ih =>
    intro h
    rw [List.countP_cons, List.countP_cons, h a (List.mem_cons_self a t),
      ih (fun x hx => h x (List.mem_cons_of_mem a hx))]

theorem update_or_create_countBy_hit {hit : α → Bool} {upd : α → α} {mk : α} {db : List α}
    (hmk : hit mk = true) (hupd : ∀ r, hit r = true → hit (upd r) = true)
    (hdb : countBy hit db ≤ 1) :
    countBy hit (update_or_create hit upd mk db) = 1 := by
  unfold update_or_create
  by_cases h : db.any hit = true
  · rw [if_pos h, countBy_eq_countP, List.countP_map]
    have hpt : ∀ r ∈ db, (hit ∘ fun r => if hit r then upd r else r) r = hit r := by
      intro r _
      by_cases hr : hit r = true
      · simp only [Function.comp, hr, if_true, hupd r hr]
      · simp [Function.comp, hr]
    rw [countP_pointwise hpt]
    obtain ⟨x, hx, hhx⟩ := List.any_eq_true.mp h
    have hpos : 0 < db.countP hit := List.countP_pos_iff.mpr ⟨x, hx, hhx⟩
    rw [countBy_eq_countP] at hdb
    omega
  · rw [if_neg h, countBy_eq_countP, List.countP_append]
    have hz : db.countP hit = 0 := by
      rw [List.countP_eq_zero]
      exact fun a ha => List.any_eq_false.mp (Bool.not_eq_true _ ▸ eq_false_of_ne_true h) a ha
    rw [hz, List.countP_cons, List.countP_nil, hmk]
    rfl

theorem update_or_create_countBy_other {hit : α → Bool} {upd : α → α} {mk : α} {db : List α}
    (q : α → Bool) (hqmk : q mk = false)
    (hq : ∀ r, hit r = true → q (upd r) = q r) :
    countBy q (update_or_create hit upd mk db) = countBy q db := by
  unfold update_or_create
  by_cases h : db.any hit = true
  · rw [if_pos h, countBy_eq_countP, List.countP_map, countBy_eq_countP]
    apply countP_pointwise
    intro r _
    by_cases hr : hit r = true
    · simp only [Function.comp, hr, if_true, hq r hr]
    · simp [Function.comp, hr]
  · rw [if_neg h, countBy_eq_countP, List.countP_append, countBy_eq_countP,
      List.countP_cons, List.countP_nil, hqmk]
    rfl

theorem update_or_create_hit_rows {hit : α → Bool} {upd : α → α} {mk : α} {db : List α}
    (P : α → Prop) (hmk : P mk) (hupd : ∀ r, hit r = true → P (upd r)) :
    ∀ r ∈ update_or_create hit upd mk db, hit r = true → P r := by
  intro r hr hhit
  unfold update_or_create at hr
  by_cases h : db.any hit = true
  · rw [if_pos h] at hr
    obtain ⟨r₀, hr₀, heq⟩ := List.mem_map.mp hr
    by_cases hh : hit r₀ = true
    · rw [if_pos hh] at heq; exact heq ▸ hupd r₀ hh
    · rw [if_neg hh] at heq
      rw [← heq] at hhit
      exact absurd hhit hh
  · rw [if_neg h] at hr
    rcases List.mem_append.mp hr with h1 | h2
    · exact absurd hhit (List.any_eq_false.mp (Bool.not_eq_true _ ▸ eq_false_of_ne_true h) r h1)
    · exact (List.mem_singleton.mp h2) ▸ hmk

theorem update_or_create_mem {hit : α → Bool} {upd : α → α} {mk : α} {db : List α}
    {r : α} (hr : r ∈ update_or_create hit upd mk db) :
    r = mk ∨ r ∈ db ∨ ∃ r₀ ∈ db, hit r₀ = true ∧ r = upd r₀ := by
  unfold update_or_create at hr
  by_cases h : db.any hit = true
  · simp only [h, if_true, List.mem_map] at hr
    obtain ⟨r₀, hr₀, heq⟩ := hr
    by_cases hh : hit r₀ = true
    · exact Or.inr (Or.inr ⟨r₀, hr₀, hh, by simp [hh] at heq; exact heq.symm⟩)
    · simp [hh] at heq; exact Or.inr (Or.inl (heq ▸ hr₀))
  · simp only [h, if_false] at hr
    rcases List.mem_append.mp hr with h1 | h2
    · exact Or.inr (Or.inl h1)
    · exact Or.inl (List.mem_singleton.mp h2)

theorem update_or_create_prop_preserved {hit : α → Bool} {upd : α → α} {mk : α} {db : List α}
    (P : α → Prop) (q : α → Bool)
    (hdb : ∀ r ∈ db, q r = true → P r)
    (hqmk : q mk = false)
    (hq : ∀ r, hit r = true → q (upd r) = q r)
    (hdisj : ∀ r, hit r = true → q r = false) :
    ∀ r ∈ update_or_create hit upd mk db, q r = true → P r := by
  intro r hr hqr
  rcases update_or_create_mem hr with h | h | ⟨r₀, hr₀, hh, h⟩
  · rw [h] at hqr; rw [hqr] at hqmk; exact absurd hqmk (by simp)
  · exact hdb r h hqr
  · rw [h, hq r₀ hh, hdisj r₀ hh] at hqr
    exact absurd hqr (by simp)

/-- C8: after any `save`, `net_salary` equals `base + allowances − deductions`,
even when the caller assigned `net_salary` directly beforehand; and every row
written by the payroll upsert (the only operation in the source that writes a
`Payroll` row besides a direct `save`) satisfies the invariant as well. -/
theorem payroll_save_net_invariant (p : Payroll) (v : Rat)
    (emp m y : Nat) (b al de : Rat) (db : List Payroll) :
    (Payroll.save { p with net_salary := v }).netInvariant
    ∧ (Payroll.save p).net_salary = p.base_salary + p.allowances - p.deductions
    ∧ ((∀ q ∈ db, q.netInvariant) →
        ∀ q ∈ payrollUpsert emp m y b al de db, q.netInvariant) := by
  refine ⟨rfl, rfl, fun hdb q hq => ?_⟩
  rcases update_or_create_mem hq with h | h | ⟨r₀, _, _, h⟩
  · rw [h]; rfl
  · exact hdb q h
  · rw [h]; rfl

/-- Concrete instantiation of `payroll_save_net_invariant`: a row saved with
`net_salary` pre-set to 999 comes out with net 1200 + 100 − 50 = 1250, and the
upsert into a well-formed one-row table keeps the invariant everywhere. -/
theorem payroll_save_net_invariant_witness :
    (Payroll.save { employee := 1, month := 3, year := 2024, base_salary := 1200,
                    allowances := 100, deductions := 50, net_salary := 999 }).netInvariant
    ∧ (Payroll.save { employee := 1, month := 3, year := 2024, base_salary := 1200,
                      allowances := 100, deductions := 50,
                      net_salary := 999 : Payroll }).net_salary = 1200 + 100 - 50
    ∧ ((∀ q ∈ [({ employee := 2, month := 3, year := 2024, base_salary := 10,
                  allowances := 0, deductions := 0, net_salary := 10 } : Payroll)],
          q.netInvariant) →
        ∀ q ∈ payrollUpsert 1 3 2024 1200 100 50
            [{ employee := 2, month := 3, year := 2024, base_salary := 10,
               allowances := 0, deductions := 0, net_salary := 10 }], q.netInvariant) := by
  have h := payroll_save_net_invariant
    { employee := 1, month := 3, year := 2024, base_salary := 1200,
      allowances := 100, deductions := 50, net_salary := 0 } 999
    1 3 2024 1200 100 50
    [{ employee := 2, month := 3, year := 2024, base_salary := 10,
       allowances := 0, deductions := 0, net_salary := 10 }]
  exact ⟨h.1, h.2.1, h.2.2⟩

theorem countBy_le_length (q : α → Bool) (db : List α) : countBy q db ≤ db.length :=
  List.length_filter_le q db

theorem attMarkLeave_countBy (emp d : Nat) (db : List AttendanceRec)
    (h : countBy (AttendanceRec.keyIs emp d) db ≤ 1) :
    countBy (AttendanceRec.keyIs emp d) (attMarkLeave emp d db) = 1 := by
  apply update_or_create_countBy_hit _ _ h
  · simp [AttendanceRec.keyIs]
  · intro r hr; exact hr

theorem attMarkLeave_countBy_ne (emp d e' d' : Nat) (db : List AttendanceRec)
    (h : e' ≠ emp ∨ d' ≠ d) :
    countBy (AttendanceRec.keyIs e' d') (attMarkLeave emp d db)
      = countBy (AttendanceRec.keyIs e' d') db := by
  apply update_or_create_countBy_other
  · simp only [AttendanceRec.keyIs, Bool.and_eq_false_iff, beq_eq_false_iff_ne]
    omega
  · intro r _; rfl

theorem attMarkLeave_status (emp d : Nat) (db : List AttendanceRec) :
    ∀ r ∈ attMarkLeave emp d db, AttendanceRec.keyIs emp d r = true → r.status = "LEAVE" := by
  apply update_or_create_hit_rows
  · rfl
  · intro r _; rfl

theorem attMarkLeave_status_preserved (emp d e' d' : Nat) (db : List AttendanceRec)
    (h : e' ≠ emp ∨ d' ≠ d)
    (hdb : ∀ r ∈ db, AttendanceRec.keyIs e' d' r = true → r.status = "LEAVE") :
    ∀ r ∈ attMarkLeave emp d db, AttendanceRec.keyIs e' d' r = true → r.status = "LEAVE" := by
  apply update_or_create_prop_preserved _ _ hdb
  · simp only [AttendanceRec.keyIs, Bool.and_eq_false_iff, beq_eq_false_iff_ne]
    omega
  · intro r _; rfl
  · intro r hr
    simp only [AttendanceRec.keyIs, Bool.and_eq_true, beq_iff_eq] at hr
    simp only [AttendanceRec.keyIs, Bool.and_eq_false_iff, beq_eq_false_iff_ne]
    omega

theorem attMarkLeave_wf (emp d : Nat) (db : List AttendanceRec)
    (hdb : ∀ e d', countBy (AttendanceRec.keyIs e d') db ≤ 1) :
    ∀ e d', countBy (AttendanceRec.keyIs e d') (attMarkLeave emp d db) ≤ 1 := by
  intro e d'
  by_cases h : e = emp ∧ d' = d
  · obtain ⟨he, hd⟩ := h
    subst he; subst hd
    rw [attMarkLeave_countBy _ _ _ (hdb _ _)]
  · rw [attMarkLeave_countBy_ne _ _ _ _ _ (by omega)]
    exact hdb e d'

theorem markLeaveGo_countBy_preserved (emp e' d' : Nat) :
    ∀ (k cur : Nat) (db : List AttendanceRec), (e' ≠ emp ∨ d' < cur ∨ cur + k ≤ d') →
    countBy (AttendanceRec.keyIs e' d') (markLeaveGo emp k cur db)
      = countBy (AttendanceRec.keyIs e' d') db := by
  intro k
  induction k with
  | zero => intro cur db _; rfl
  | succ n ih =>
    intro cur db h
    show countBy _ (markLeaveGo emp n (cur + 1) (attMarkLeave emp cur db)) = _
    rw [ih (cur + 1) _ (by omega), attMarkLeave_countBy_ne _ _ _ _ _ (by omega)]

theorem markLeaveGo_status_preserved (emp e' d' : Nat) :
    ∀ (k cur : Nat) (db : List AttendanceRec), (e' ≠ emp ∨ d' < cur ∨ cur + k ≤ d') →
    (∀ r ∈ db, AttendanceRec.keyIs e' d' r = true → r.status = "LEAVE") →
    ∀ r ∈ markLeaveGo emp k cur db,
      AttendanceRec.keyIs e' d' r = true → r.status = "LEAVE" := by
  intro k
  induction k with
  | zero => intro cur db _ hdb; exact hdb
  | succ n ih =>
    intro cur db h hdb
    exact ih (cur + 1) _ (by omega)
      (attMarkLeave_status_preserved emp cur e' d' db (by omega) hdb)

theorem markLeaveGo_wf (emp : Nat) :
    ∀ (k cur : Nat) (db : List AttendanceRec),
    (∀ e d, countBy (AttendanceRec.keyIs e d) db ≤ 1) →
    ∀ e d, countBy (AttendanceRec.keyIs e d) (markLeaveGo emp k cur db) ≤ 1 := by
  intro k
  induction k with
  | zero => intro cur db hdb; exact hdb
  | succ n ih =>
    intro cur db hdb
    exact ih (cur + 1) _ (attMarkLeave_wf emp cur db hdb)

theorem markLeaveGo_marks (emp : Nat) :
    ∀ (k cur : Nat) (db : List AttendanceRec),
    (∀ e d, countBy (AttendanceRec.keyIs e d) db ≤ 1) →
    ∀ d, cur ≤ d → d < cur + k →
      countBy (AttendanceRec.keyIs emp d) (markLeaveGo emp k cur db) = 1
      ∧ ∀ r ∈ markLeaveGo emp k cur db,
          AttendanceRec.keyIs emp d r = true → r.status = "LEAVE" := by
  intro k
  induction k with
  | zero => intro cur db _ d h1 h2; omega
  | succ n ih =>
    intro cur db hdb d h1 h2
    by_cases hd : d = cur
    · subst hd
      constructor
      · show countBy _ (markLeaveGo emp n (d + 1) (attMarkLeave emp d db)) = 1
        rw [markLeaveGo_countBy_preserved emp emp d n (d + 1) _ (by omega)]
        exact attMarkLeave_countBy _ _ _ (hdb _ _)
      · exact markLeaveGo_status_preserved emp emp d n (d + 1) _ (by omega)
          (attMarkLeave_status emp d db)
    · exact ih (cur + 1) _ (attMarkLeave_wf emp cur db hdb) d (by omega) (by omega)

theorem markLeaveRange_marks (emp cur fin : Nat) (db : List AttendanceRec)
    (hdb : ∀ e d, countBy (AttendanceRec.keyIs e d) db ≤ 1) :
    ∀ d, cur ≤ d → d ≤ fin →
      countBy (AttendanceRec.keyIs emp d) (markLeaveRange emp cur fin db) = 1
      ∧ ∀ r ∈ markLeaveRange emp cur fin db,
          AttendanceRec.keyIs emp d r = true → r.status = "LEAVE" := by
  intro d h1 h2
  exact markLeaveGo_marks emp (fin + 1 - cur) cur db hdb d h1 (by omega)

theorem approve_leave_applies (req : LeaveReq) (approver : Nat) (comments : String)
    (db : List AttendanceRec)
    (hdb : ∀ e d, countBy (AttendanceRec.keyIs e d) db ≤ 1) :
    (approve_leave req approver comments db).1.status = "APPROVED"
    ∧ (approve_leave req approver comments db).1.approved_by = some approver
    ∧ (approve_leave req approver comments db).1.admin_comments = comments
    ∧ ∀ d, req.start_date ≤ d → d ≤ req.end_date →
        countBy (AttendanceRec.keyIs req.employee d)
          (approve_leave req approver comments db).2 = 1
        ∧ ∀ r ∈ (approve_leave req approver comments db).2,
            AttendanceRec.keyIs req.employee d r = true → r.status = "LEAVE" := by
  exact ⟨rfl, rfl, rfl,
    markLeaveRange_marks req.employee req.start_date req.end_date db hdb⟩

/-- C7: approving a pending leave request sets its status to `APPROVED` with
approver and comments recorded, and for each date of the inclusive range
`[start_date, end_date]` exactly one attendance row for that employee and
date exists afterwards with status `LEAVE`, overwritten regardless of any
prior record or status on that date (the well-formedness hypothesis is the
table's `unique_together` constraint). -/
theorem approve_leave_pending_spec (req : LeaveReq) (approver : Nat) (comments : String)
    (db : List AttendanceRec)
    (hpending : req.status = "PENDING")
    (hdb : ∀ e d, countBy (AttendanceRec.keyIs e d) db ≤ 1) :
    (approve_leave req approver comments db).1.status = "APPROVED"
    ∧ (approve_leave req approver comments db).1.approved_by = some approver
    ∧ (approve_leave req approver comments db).1.admin_comments = comments
    ∧ ∀ d, req.start_date ≤ d → d ≤ req.end_date →
        countBy (AttendanceRec.keyIs req.employee d)
          (approve_leave req approver comments db).2 = 1
        ∧ ∀ r ∈ (approve_leave req approver comments db).2,
            AttendanceRec.keyIs req.employee d r = true → r.status = "LEAVE" :=
  approve_leave_applies req approver comments db hdb

/-- Instantiation of `approve_leave_pending_spec`: approving the pending
request over `[10, 12]` against a table where employee 1 is `PRESENT` on
date 11 yields exactly one row for date 11, now with status `LEAVE`. -/
theorem approve_leave_pending_spec_witness :
    (approve_leave reqPending 9 "ok" dbPresent11).1.status = "APPROVED"
    ∧ (approve_leave reqPending 9 "ok" dbPresent11).1.approved_by = some 9
    ∧ (approve_leave reqPending 9 "ok" dbPresent11).1.admin_comments = "ok"
    ∧ countBy (AttendanceRec.keyIs 1 11) (approve_leave reqPending 9 "ok" dbPresent11).2 = 1
    ∧ ∀ r ∈ (approve_leave reqPending 9 "ok" dbPresent11).2,
        AttendanceRec.keyIs 1 11 r = true → r.status = "LEAVE" := by
  have h := approve_leave_pending_spec reqPending 9 "ok" dbPresent11 rfl
    (fun e d => (countBy_le_length _ _).trans (by decide))
  exact ⟨h.1, h.2.1, h.2.2.1, (h.2.2.2 11 (by decide) (by decide)).1,
    (h.2.2.2 11 (by decide) (by decide)).2⟩

/-- C2 counterexample: the claim predicts that approving an already-approved
request fails, leaves approver and comments unchanged and mutates no
attendance.  On the code, approving `reqDecided` (status `APPROVED`,
comments "old", approver 7) overwrites comments to "new" and approver to 9,
and creates attendance rows where there were none. -/
theorem approve_leave_already_decided_counterexample :
    (approve_leave reqDecided 9 "new" []).1.admin_comments = "new"
    ∧ (approve_leave reqDecided 9 "new" []).1.approved_by = some 9
    ∧ (approve_leave reqDecided 9 "new" []).2 ≠ [] := by
  refine ⟨rfl, rfl, ?_⟩
  decide

/-- C2 (amended): the approve operation never inspects the request's current
status: for a request that is already `APPROVED` or `REJECTED` it re-applies
the transition — sets status to `APPROVED`, overwrites approver and
comments, and re-upserts a `LEAVE` attendance row for every date of the
range — instead of failing with `AlreadyDecided`. -/
theorem approve_leave_ignores_prior_decision (req : LeaveReq) (approver : Nat)
    (comments : String) (db : List AttendanceRec)
    (hdecided : req.status = "APPROVED" ∨ req.status = "REJECTED")
    (hdb : ∀ e d, countBy (AttendanceRec.keyIs e d) db ≤ 1) :
    (approve_leave req approver comments db).1.status = "APPROVED"
    ∧ (approve_leave req approver comments db).1.approved_by = some approver
    ∧ (approve_leave req approver comments db).1.admin_comments = comments
    ∧ ∀ d, req.start_date ≤ d → d ≤ req.end_date →
        countBy (AttendanceRec.keyIs req.employee d)
          (approve_leave req approver comments db).2 = 1
        ∧ ∀ r ∈ (approve_leave req approver comments db).2,
            AttendanceRec.keyIs req.employee d r = true → r.status = "LEAVE" :=
  approve_leave_applies req approver comments db hdb

/-- Instantiation of `approve_leave_ignores_prior_decision` at the
already-approved request `reqDecided`. -/
theorem approve_leave_ignores_prior_decision_witness :
    (approve_leave reqDecided 9 "new" dbPresent11).1.status = "APPROVED"
    ∧ (approve_leave reqDecided 9 "new" dbPresent11).1.approved_by = some 9
    ∧ (approve_leave reqDecided 9 "new" dbPresent11).1.admin_comments = "new"
    ∧ countBy (AttendanceRec.keyIs 1 10) (approve_leave reqDecided 9 "new" dbPresent11).2 = 1 := by
  have h := approve_leave_ignores_prior_decision reqDecided 9 "new" dbPresent11
    (Or.inl rfl) (fun e d => (countBy_le_length _ _).trans (by decide))
  exact ⟨h.1, h.2.1, h.2.2.1, (h.2.2.2 10 (by decide) (by decide)).1⟩

/-- C1 counterexample: the claim predicts that a submission with
`end_date < start_date` is rejected with `InvalidDateRange` and nothing is
persisted.  On the code, submitting start 10 / end 5 persists exactly one new
`LeaveRequest`, whose end date precedes its start date. -/
theorem apply_leave_end_before_start_persisted :
    (apply_leave 1 { leave_type := "PAID", start_date := 10, end_date := 5,
                     remarks := "r" } []).length = 1
    ∧ ∀ r ∈ apply_leave 1 { leave_type := "PAID", start_date := 10, end_date := 5,
                            remarks := "r" } [],
        r.end_date < r.start_date ∧ r.status = "PENDING" := by
  refine ⟨rfl, ?_⟩
  decide

/-- C1 (amended): the submit operation performs no date-range validation —
any submission whose leave type is a declared choice is persisted verbatim,
including when `end_date < start_date`; every created request has status
`PENDING`. -/
theorem apply_leave_accepts_any_range (emp : Nat) (d : LeaveFormData) (db : List LeaveReq)
    (hvalid : leaveFormIsValid d = true) :
    apply_leave emp d db
      = db ++ [{ employee := emp, leave_type := d.leave_type, start_date := d.start_date,
                 end_date := d.end_date, remarks := d.remarks, status := "PENDING",
                 admin_comments := "", approved_by := none }] := by
  unfold apply_leave
  rw [if_pos hvalid]

/-- Instantiation of `apply_leave_accepts_any_range` at a submission whose
end date 3 precedes its start date 7. -/
theorem apply_leave_accepts_any_range_witness :
    apply_leave 2 { leave_type := "SICK", start_date := 7, end_date := 3,
                    remarks := "w" } []
      = [{ employee := 2, leave_type := "SICK", start_date := 7, end_date := 3,
           remarks := "w", status := "PENDING", admin_comments := "",
           approved_by := none }] :=
  apply_leave_accepts_any_range 2
    { leave_type := "SICK", start_date := 7, end_date := 3, remarks := "w" } [] (by decide)

/-- C10: `check_in` warns `AlreadyCheckedIn` exactly when a record for the
day already carries a check-in time; a day record without one — such as a
`LEAVE` row created by leave approval — is instead given check-in = now and
its status is overwritten to `PRESENT` (as is a fresh record). -/
theorem check_in_spec (emp today nowT : Nat) (db : List AttendanceRec) :
    ((check_in_view emp today nowT db).1 = CheckInResult.alreadyCheckedIn ↔
      ∃ a, db.find? (AttendanceRec.keyIs emp today) = some a ∧ a.check_in_time.isSome = true)
    ∧ ∀ a, db.find? (AttendanceRec.keyIs emp today) = some a → a.check_in_time = none →
        (check_in_view emp today nowT db).1 = CheckInResult.success
        ∧ ∀ r ∈ (check_in_view emp today nowT db).2,
            AttendanceRec.keyIs emp today r = true →
              r.check_in_time = some nowT ∧ r.status = "PRESENT" := by
  cases hf : db.find? (AttendanceRec.keyIs emp today) with
  | none =>
    refine ⟨?_, ?_⟩
    · simp [check_in_view, hf]
    · intro a ha
      exact absurd ha (by simp)
  | some a =>
    by_cases hs : a.check_in_time.isSome = true
    · refine ⟨?_, ?_⟩
      · simp [check_in_view, hf, hs]
      · intro a' ha' hnone
        obtain rfl : a = a' := Option.some_injective _ ha'
        rw [hnone] at hs
        exact absurd hs (by simp)
    · refine ⟨?_, ?_⟩
      · simp only [check_in_view, hf, Bool.not_eq_true] at hs ⊢
        rw [hs]
        constructor
        · intro h; exact absurd h (by simp)
        · rintro ⟨a', ha', hsa⟩
          obtain rfl : a = a' := Option.some_injective _ ha'
          rw [hs] at hsa
          exact absurd hsa (by simp)
      · intro a' ha' _
        obtain rfl : a = a' := Option.some_injective _ ha'
        constructor
        · rw [Bool.not_eq_true] at hs
          simp [check_in_view, hf, hs]
        · intro r hr hhit
          rw [Bool.not_eq_true] at hs
          simp only [check_in_view, hf, hs, Bool.false_eq_true, if_false] at hr
          obtain ⟨r₀, hr₀, heq⟩ := List.mem_map.mp hr
          by_cases hh : AttendanceRec.keyIs emp today r₀ = true
          · rw [if_pos hh] at heq
            rw [← heq]
            exact ⟨rfl, rfl⟩
          · rw [if_neg hh] at heq
            rw [← heq] at hhit
            exact absurd hhit hh

/-- Instantiation of `check_in_spec`: checking in against a lone `LEAVE` row
without a check-in time succeeds and turns the row into a `PRESENT` row
checked in at 09:00. -/
theorem check_in_spec_witness :
    (check_in_view 1 20 32400 [rowLeaveNoCheckIn]).1 = CheckInResult.success
    ∧ ∀ r ∈ (check_in_view 1 20 32400 [rowLeaveNoCheckIn]).2,
        AttendanceRec.keyIs 1 20 r = true →
          r.check_in_time = some 32400 ∧ r.status = "PRESENT" :=
  (check_in_spec 1 20 32400 [rowLeaveNoCheckIn]).2 rowLeaveNoCheckIn rfl rfl

/-- C6 counterexample: the claim says the computed hours equal the exact
fractional elapsed hours and that status `PRESENT` requires `hours ≥ 8`.
With check-in 09:00:00 and check-out 16:59:59 the exact elapsed time is
28799/3600 < 8 hours, yet `calculate_hours_worked` rounds to 8.00 and the
resulting status is `PRESENT`. -/
theorem check_out_rounding_counterexample :
    calculate_hours_worked { rowCheckedIn0900 with check_out_time := some 61199 }
        ≠ ((61199 : Rat) - 32400) / 3600
    ∧ calculate_hours_worked { rowCheckedIn0900 with check_out_time := some 61199 } = 8
    ∧ checkOutStatus
        (calculate_hours_worked { rowCheckedIn0900 with check_out_time := some 61199 })
        = "PRESENT"
    ∧ ((61199 : Rat) - 32400) / 3600 < 8 := by
  refine ⟨?_, ?_, ?_, by norm_num⟩
  · norm_num [calculate_hours_worked, rowCheckedIn0900, round2, roundHalfEven]
  · norm_num [calculate_hours_worked, rowCheckedIn0900, round2, roundHalfEven]
  · norm_num [calculate_hours_worked, rowCheckedIn0900, round2, roundHalfEven, checkOutStatus]

/-- C6 (amended): for a record checked in but not yet out, `check_out` sets
check-out = now and derives the status from the worked hours, which are the
elapsed fractional hours ROUNDED to two decimal places (Python
`round(·, 2)`); the thresholds `≥ 8` Present / `≥ 4` HalfDay / else Absent
are applied to that rounded value.  The spec's three examples are exact at
two decimals and hold as stated: 09:00–17:30 gives 8.5 h Present,
09:00–12:30 gives 3.5 h Absent, 09:00–14:00 gives 5 h HalfDay. -/
theorem check_out_rounded_spec (emp today nowT : Nat) (db : List AttendanceRec)
    (a : AttendanceRec)
    (hfind : db.find? (AttendanceRec.keyIs emp today) = some a)
    (hci : a.check_in_time.isSome = true)
    (hco : a.check_out_time = none) :
    ((check_out_view emp today nowT db).1 = CheckOutResult.success
      ∧ ∀ r ∈ (check_out_view emp today nowT db).2,
          AttendanceRec.keyIs emp today r = true →
            r.check_out_time = some nowT
            ∧ ∀ ci, r.check_in_time = some ci →
                r.status = checkOutStatus (round2 (((nowT : Rat) - (ci : Rat)) / 3600)))
    ∧ calculate_hours_worked { rowCheckedIn0900 with check_out_time := some 63000 } = 17 / 2
    ∧ checkOutStatus
        (calculate_hours_worked { rowCheckedIn0900 with check_out_time := some 63000 })
        = "PRESENT"
    ∧ calculate_hours_worked { rowCheckedIn0900 with check_out_time := some 45000 } = 7 / 2
    ∧ checkOutStatus
        (calculate_hours_worked { rowCheckedIn0900 with check_out_time := some 45000 })
        = "ABSENT"
    ∧ calculate_hours_worked { rowCheckedIn0900 with check_out_time := some 50400 } = 5
    ∧ checkOutStatus
        (calculate_hours_worked { rowCheckedIn0900 with check_out_time := some 50400 })
        = "HALF_DAY" := by
  refine ⟨⟨?_, ?_⟩, ?_, ?_, ?_, ?_, ?_, ?_⟩
  · rw [Option.isSome_iff_exists] at hci
    obtain ⟨ci, hci⟩ := hci
    simp [check_out_view, hfind, hci, hco]
  · intro r hr hhit
    rw [Option.isSome_iff_exists] at hci
    obtain ⟨ci0, hci0⟩ := hci
    simp only [check_out_view, hfind, hci0, hco] at hr
    simp only [Option.isNone_some, Bool.false_eq_true, if_false, Option.isSome_none] at hr
    obtain ⟨r₀, hr₀, heq⟩ := List.mem_map.mp hr
    by_cases hh : AttendanceRec.keyIs emp today r₀ = true
    · rw [if_pos hh] at heq
      subst heq
      refine ⟨rfl, ?_⟩
      intro ci hcieq
      simp only at hcieq
      simp [calculate_hours_worked, hcieq]
    · rw [if_neg hh] at heq
      rw [← heq] at hhit
      exact absurd hhit hh
  · norm_num [calculate_hours_worked, rowCheckedIn0900, round2, roundHalfEven]
  · norm_num [calculate_hours_worked, rowCheckedIn0900, round2, roundHalfEven, checkOutStatus]
  · norm_num [calculate_hours_worked, rowCheckedIn0900, round2, roundHalfEven]
  · norm_num [calculate_hours_worked, rowCheckedIn0900, round2, roundHalfEven, checkOutStatus]
  · norm_num [calculate_hours_worked, rowCheckedIn0900, round2, roundHalfEven]
  · norm_num [calculate_hours_worked, rowCheckedIn0900, round2, roundHalfEven, checkOutStatus]

/-- Instantiation of `check_out_rounded_spec`: checking out at 17:30 against
a lone row checked in at 09:00 succeeds, sets check-out = 17:30 and the
status from the rounded hours. -/
theorem check_out_rounded_spec_witness :
    (check_out_view 1 20 63000 [rowCheckedIn0900]).1 = CheckOutResult.success
    ∧ ∀ r ∈ (check_out_view 1 20 63000 [rowCheckedIn0900]).2,
        AttendanceRec.keyIs 1 20 r = true →
          r.check_out_time = some 63000
          ∧ ∀ ci, r.check_in_time = some ci →
              r.status = checkOutStatus (round2 (((63000 : Rat) - (ci : Rat)) / 3600)) :=
  (check_out_rounded_spec 1 20 63000 [rowCheckedIn0900] rowCheckedIn0900 rfl rfl rfl).1

theorem string_length_ne_zero {s : String} (h : s ≠ "") : s.length ≠ 0 := by
  intro hz
  apply h
  cases s with
  | mk data =>
    cases data with
    | nil => rfl
    | cons c t => simp [String.length] at hz

/-- C3: with a pending login (a stored `otp_user_id` and a stored code that
is not the empty string — `generate_otp` never produces one), confirmation
succeeds iff the submitted code equals the stored code and now is at or
before the stored expiry; success clears code, expiry and pending token and
logs the user in; an absent or expired code/expiry fails `Expired` and
clears only the pending token; a mismatch inside the window fails
`Mismatch` and leaves the whole state intact. -/
theorem otp_verify_spec (st : OtpState) (now : Nat) (entered : String) (uid : Nat)
    (hpend : st.otp_user_id = some uid)
    (hne : st.otp ≠ some "") :
    ((otp_verify_view st now entered).1 = OtpResult.success ↔
        (st.otp = some entered ∧ ∃ e, st.otp_expiry = some e ∧ now ≤ e))
    ∧ ((otp_verify_view st now entered).1 = OtpResult.success →
        (otp_verify_view st now entered).2 =
          { otp := none, otp_expiry := none, otp_user_id := none, logged_in := true })
    ∧ ((st.otp = none ∨ st.otp_expiry = none ∨ ∃ e, st.otp_expiry = some e ∧ e < now) →
        (otp_verify_view st now entered).1 = OtpResult.expired
        ∧ (otp_verify_view st now entered).2 = { st with otp_user_id := none })
    ∧ (∀ c, st.otp = some c → c ≠ entered → (∃ e, st.otp_expiry = some e ∧ now ≤ e) →
        (otp_verify_view st now entered).1 = OtpResult.mismatch
        ∧ (otp_verify_view st now entered).2 = st) := by
  unfold otp_verify_view
  rw [hpend]
  by_cases hgate : (otpTruthy st.otp && st.otp_expiry.isSome
      && decide (now ≤ st.otp_expiry.getD 0)) = true
  · rw [if_pos hgate]
    simp only [Bool.and_eq_true, decide_eq_true_eq] at hgate
    obtain ⟨⟨htr, hsome⟩, hle⟩ := hgate
    obtain ⟨e, he⟩ := Option.isSome_iff_exists.mp hsome
    rw [he] at hle
    simp only [Option.getD_some] at hle
    by_cases hmatch : (st.otp == some entered) = true
    · rw [if_pos hmatch]
      rw [beq_iff_eq] at hmatch
      refine ⟨?_, fun _ => rfl, ?_, ?_⟩
      · exact iff_of_true rfl ⟨hmatch, e, he, hle⟩
      · intro habs
        rcases habs with h | h | ⟨e', he', hlt⟩
        · rw [h] at htr; exact absurd htr (by simp [otpTruthy])
        · rw [h] at he; exact absurd he (by simp)
        · rw [he'] at he
          obtain rfl : e' = e := by injection he
          omega
      · intro c hc hcne _
        rw [hmatch] at hc
        exact absurd (Option.some_injective _ hc).symm hcne
    · rw [if_neg hmatch]
      refine ⟨?_, ?_, ?_, ?_⟩
      · constructor
        · intro h; exact absurd h (by simp)
        · rintro ⟨hm, _⟩
          rw [beq_iff_eq] at hmatch
          exact absurd hm hmatch
      · intro h; exact absurd h (by simp)
      · intro habs
        rcases habs with h | h | ⟨e', he', hlt⟩
        · rw [h] at htr; exact absurd htr (by simp [otpTruthy])
        · rw [h] at he; exact absurd he (by simp)
        · rw [he'] at he
          obtain rfl : e' = e := by injection he
          omega
      · intro c hc hcne hwin
        exact ⟨rfl, rfl⟩
  · rw [if_neg hgate]
    refine ⟨?_, ?_, fun _ => ⟨rfl, rfl⟩, ?_⟩
    · constructor
      · intro h; exact absurd h (by simp)
      · rintro ⟨hm, e, he, hle⟩
        exfalso
        apply hgate
        have htr : otpTruthy st.otp = true := by
          rw [hm]
          simp only [otpTruthy, ne_eq]
          have : entered ≠ "" := fun habs => hne (habs ▸ hm)
          simpa using string_length_ne_zero this
        rw [htr, he]
        simp [hle]
    · intro h; exact absurd h (by simp)
    · intro c hc hcne hwin
      exfalso
      apply hgate
      obtain ⟨e, he, hle⟩ := hwin
      have hcne' : c ≠ "" := fun habs => hne (habs ▸ hc)
      rw [hc, he]
      simp only [otpTruthy, Option.isSome_some, Option.getD_some]
      simp [string_length_ne_zero hcne', hle]

/-- Instantiation of `otp_verify_spec` at the pending state of user 5. -/
theorem otp_verify_spec_witness :
    ((otp_verify_view stOtpPending 900 "123456").1 = OtpResult.success ↔
        (stOtpPending.otp = some "123456" ∧ ∃ e, stOtpPending.otp_expiry = some e ∧ 900 ≤ e))
    ∧ ((otp_verify_view stOtpPending 900 "123456").1 = OtpResult.success →
        (otp_verify_view stOtpPending 900 "123456").2 =
          { otp := none, otp_expiry := none, otp_user_id := none, logged_in := true })
    ∧ ((stOtpPending.otp = none ∨ stOtpPending.otp_expiry = none
          ∨ ∃ e, stOtpPending.otp_expiry = some e ∧ e < 900) →
        (otp_verify_view stOtpPending 900 "123456").1 = OtpResult.expired
        ∧ (otp_verify_view stOtpPending 900 "123456").2 =
            { stOtpPending with otp_user_id := none })
    ∧ (∀ c, stOtpPending.otp = some c → c ≠ "123456" →
        (∃ e, stOtpPending.otp_expiry = some e ∧ 900 ≤ e) →
        (otp_verify_view stOtpPending 900 "123456").1 = OtpResult.mismatch
        ∧ (otp_verify_view stOtpPending 900 "123456").2 = stOtpPending) :=
  otp_verify_spec stOtpPending 900 "123456" 5 rfl (by decide)

theorem otpDigit_isDigit (n : Nat) : (otpDigit n).isDigit = true := by
  have h : n % 10 < 10 := Nat.mod_lt _ (by omega)
  unfold otpDigit
  interval_cases hm : n % 10 <;> decide

/-- C4 (modelled from the spec for `generate_otp`, see its doc comment):
with valid credentials `login_view` stores a fixed-width 6-digit numeric
code on the user record together with an expiry of now + 10 minutes,
dispatches the code by mail to the registered email, and stores the user id
in the session as the pending-authentication token. -/
theorem login_view_otp_spec (uid : Nat) (email : String) (auth : Bool) (seed now : Nat)
    (st : LoginState) (hauth : auth = true) :
    (login_view uid email auth seed now st).1 = LoginResult.otpSent
    ∧ ∃ code,
        (login_view uid email auth seed now st).2.user_otp = some code
        ∧ code.length = 6
        ∧ (∀ c ∈ code.data, c.isDigit = true)
        ∧ (login_view uid email auth seed now st).2.user_otp_expiry = some (now + 600)
        ∧ (login_view uid email auth seed now st).2.session_otp_user_id = some uid
        ∧ (login_view uid email auth seed now st).2.outbox
            = st.outbox ++ [(email, "Your OTP for logging into Dayflow HRMS is: "
                ++ code ++ "\n\nThis code will expire in 10 minutes.")] := by
  subst hauth
  refine ⟨rfl, generate_otp seed, rfl, rfl, ?_, rfl, rfl, rfl⟩
  intro c hc
  have hc' : c ∈ [otpDigit (seed / 100000), otpDigit (seed / 10000), otpDigit (seed / 1000),
      otpDigit (seed / 100), otpDigit (seed / 10), otpDigit seed] := hc
  fin_cases hc' <;> exact otpDigit_isDigit _

/-- Instantiation of `login_view_otp_spec` at user 5 with RNG draw 7. -/
theorem login_view_otp_spec_witness :
    (login_view 5 "user@site.example" true 7 100 loginStEmpty).1 = LoginResult.otpSent
    ∧ ∃ code,
        (login_view 5 "user@site.example" true 7 100 loginStEmpty).2.user_otp = some code
        ∧ code.length = 6
        ∧ (∀ c ∈ code.data, c.isDigit = true)
        ∧ (login_view 5 "user@site.example" true 7 100 loginStEmpty).2.user_otp_expiry
            = some (100 + 600)
        ∧ (login_view 5 "user@site.example" true 7 100 loginStEmpty).2.session_otp_user_id
            = some 5
        ∧ (login_view 5 "user@site.example" true 7 100 loginStEmpty).2.outbox
            = loginStEmpty.outbox ++ [("user@site.example",
                "Your OTP for logging into Dayflow HRMS is: "
                  ++ code ++ "\n\nThis code will expire in 10 minutes.")] :=
  login_view_otp_spec 5 "user@site.example" true 7 100 loginStEmpty rfl

theorem maxString_eq_none : ∀ {l : List String}, maxString l = none ↔ l = [] := by
  intro l
  cases l with
  | nil => simp [maxString]
  | cons s t =>
    simp only [maxString]
    cases maxString t with
    | none => simp
    | some m =>
      by_cases h : m < s <;> simp [h]

theorem maxString_spec : ∀ {l : List String} {m : String}, maxString l = some m →
    m ∈ l ∧ ∀ x ∈ l, x ≤ m := by
  intro l
  induction l with
  | nil => intro m h; simp [maxString] at h
  | cons s t ih =>
    intro m h
    simp only [maxString] at h
    cases hm : maxString t with
    | none =>
      rw [hm] at h
      have h' : some s = some m := h
      obtain rfl := Option.some_injective _ h'
      have ht : t = [] := maxString_eq_none.mp hm
      subst ht
      refine ⟨by simp, by simp⟩
    | some mt =>
      rw [hm] at h
      have h' : (if mt < s then some s else some mt) = some m := h
      obtain ⟨hmem, hub⟩ := ih hm
      by_cases hlt : mt < s
      · rw [if_pos hlt] at h'
        obtain rfl := Option.some_injective _ h'
        refine ⟨List.mem_cons_self _ _, ?_⟩
        intro x hx
        rcases List.mem_cons.mp hx with rfl | hx'
        · exact le_refl x
        · exact le_trans (hub x hx') (le_of_lt hlt)
      · rw [if_neg hlt] at h'
        obtain rfl := Option.some_injective _ h'
        refine ⟨List.mem_cons_of_mem s hmem, ?_⟩
        intro x hx
        rcases List.mem_cons.mp hx with rfl | hx'
        · exact not_lt.mp hlt
        · exact hub x hx'

theorem maxString_unique {l : List String} {m : String}
    (hmem : m ∈ l) (hub : ∀ x ∈ l, x ≤ m) : maxString l = some m := by
  cases hl : maxString l with
  | none =>
    rw [maxString_eq_none.mp hl] at hmem
    exact absurd hmem (List.not_mem_nil m)
  | some m' =>
    obtain ⟨hmem', hub'⟩ := maxString_spec hl
    rw [le_antisymm (hub m' hmem') (hub' m hmem)]

/-- C5: role `ADMIN` maps to prefix `HR` and `EMPLOYEE` to `E`; when no id
with the prefix exists, or the suffix of the lexicographically greatest such
id fails to parse as an integer, the allocated id is the prefix followed by
`00001`; otherwise it is the prefix followed by that greatest id's suffix
plus one, zero-filled to width 5. -/
theorem allocate_employee_id_spec (ids : List String) (role : String) :
    rolePfx "ADMIN" = "HR"
    ∧ rolePfx "EMPLOYEE" = "E"
    ∧ ((∀ s ∈ ids, ¬ strStartsWith s (rolePfx role) = true) →
        allocate_employee_id ids role = rolePfx role ++ "00001")
    ∧ ∀ m ∈ ids, strStartsWith m (rolePfx role) = true →
        (∀ s ∈ ids, strStartsWith s (rolePfx role) = true → s ≤ m) →
        (parsePyInt (m.drop (rolePfx role).length) = none →
            allocate_employee_id ids role = rolePfx role ++ "00001")
        ∧ ∀ n : Int, parsePyInt (m.drop (rolePfx role).length) = some n →
            allocate_employee_id ids role
              = rolePfx role ++ pyZfill (toString (n + 1)) 5 := by
  refine ⟨rfl, rfl, ?_, ?_⟩
  · intro h
    have hfil : ids.filter (fun s => strStartsWith s (rolePfx role)) = [] :=
      List.filter_eq_nil_iff.mpr h
    simp only [allocate_employee_id, hfil, maxString]
    congr 1
  · intro m hm hstarts hmax
    have hmaxS : maxString (ids.filter (fun s => strStartsWith s (rolePfx role)))
        = some m := by
      apply maxString_unique (List.mem_filter.mpr ⟨hm, hstarts⟩)
      intro x hx
      obtain ⟨hx1, hx2⟩ := List.mem_filter.mp hx
      exact hmax x hx1 hx2
    constructor
    · intro hparse
      simp only [allocate_employee_id, hmaxS, hparse]
      congr 1
    · intro n hparse
      simp only [allocate_employee_id, hmaxS, hparse]

/-- Instantiation of `allocate_employee_id_spec`: with existing ids
`E00007`, `HR00002` and `X9`, allocating for role `EMPLOYEE` picks the
greatest `E`-prefixed id `E00007`, parses suffix 7 and yields `E00008`. -/
theorem allocate_employee_id_spec_witness :
    allocate_employee_id ["E00007", "HR00002", "X9"] "EMPLOYEE" = "E00008" := by
  have hmax : ∀ s ∈ ["E00007", "HR00002", "X9"],
      strStartsWith s (rolePfx "EMPLOYEE") = true → s ≤ "E00007" := by
    intro s hs hstart
    fin_cases hs
    · exact le_refl _
    · exact absurd hstart (by decide)
    · exact absurd hstart (by decide)
  have h := ((allocate_employee_id_spec ["E00007", "HR00002", "X9"] "EMPLOYEE").2.2.2
    "E00007" (by decide) (by decide) hmax).2 7 (by decide)
  rw [h]
  decide

theorem update_or_create_filter_other {hit : α → Bool} {upd : α → α} {mk : α}
    {db : List α} (q : α → Bool)
    (hqmk : q mk = false)
    (hqupd : ∀ r, hit r = true → q (upd r) = false)
    (hdisj : ∀ r, hit r = true → q r = false) :
    (update_or_create hit upd mk db).filter q = db.filter q := by
  unfold update_or_create
  by_cases h : db.any hit = true
  · rw [if_pos h]
    clear h
    induction db with
    | nil => rfl
    | cons a t ih =>
      simp only [List.map_cons, List.filter_cons]
      by_cases ha : hit a = true
      · rw [if_pos ha, hqupd a ha, hdisj a ha]
        simpa using ih
      · rw [if_neg ha]
        cases hqa : q a
        · simpa using ih
        · simp only [if_true]
          rw [ih]
  · rw [if_neg h, List.filter_append]
    simp [hqmk]

theorem payroll_keyIs_save_base {emp m y : Nat} {b al de : Rat} (p : Payroll) :
    Payroll.keyIs emp m y
      (Payroll.save { p with base_salary := b, allowances := al, deductions := de })
      = Payroll.keyIs emp m y p := rfl

theorem payrollUpsert_countBy (emp m y : Nat) (b al de : Rat) (db : List Payroll)
    (h : countBy (Payroll.keyIs emp m y) db ≤ 1) :
    countBy (Payroll.keyIs emp m y) (payrollUpsert emp m y b al de db) = 1 := by
  apply update_or_create_countBy_hit _ _ h
  · simp [Payroll.keyIs, Payroll.save, Payroll.calculate_net_salary]
  · intro r hr
    exact hr

theorem payrollUpsert_countBy_ne (emp m y : Nat) (b al de : Rat) (eid : Nat)
    (db : List Payroll) (h : eid ≠ emp) :
    countBy (Payroll.keyIs eid m y) (payrollUpsert emp m y b al de db)
      = countBy (Payroll.keyIs eid m y) db := by
  apply update_or_create_countBy_other
  · simp only [Payroll.keyIs, Payroll.save, Payroll.calculate_net_salary,
      Bool.and_eq_false_iff, beq_eq_false_iff_ne]
    omega
  · intro r _
    rfl

theorem payrollUpsert_wf (emp m y : Nat) (b al de : Rat) (db : List Payroll)
    (hdb : ∀ eid, countBy (Payroll.keyIs eid m y) db ≤ 1) :
    ∀ eid, countBy (Payroll.keyIs eid m y) (payrollUpsert emp m y b al de db) ≤ 1 := by
  intro eid
  by_cases h : eid = emp
  · subst h
    rw [payrollUpsert_countBy _ _ _ _ _ _ _ (hdb _)]
  · rw [payrollUpsert_countBy_ne _ _ _ _ _ _ _ _ h]
    exact hdb eid

theorem payrollUpsert_values (emp m y : Nat) (b al de : Rat) (db : List Payroll) :
    ∀ p ∈ payrollUpsert emp m y b al de db, Payroll.keyIs emp m y p = true →
      p.base_salary = b ∧ p.allowances = al ∧ p.deductions = de
      ∧ p.net_salary = b + al - de := by
  apply update_or_create_hit_rows
  · exact ⟨rfl, rfl, rfl, rfl⟩
  · intro r _
    exact ⟨rfl, rfl, rfl, rfl⟩

theorem payrollUpsert_filter_ne (emp m y : Nat) (b al de : Rat) (eid : Nat)
    (db : List Payroll) (h : eid ≠ emp) :
    (payrollUpsert emp m y b al de db).filter (Payroll.keyIs eid m y)
      = db.filter (Payroll.keyIs eid m y) := by
  apply update_or_create_filter_other
  · simp only [Payroll.keyIs, Payroll.save, Payroll.calculate_net_salary,
      Bool.and_eq_false_iff, beq_eq_false_iff_ne]
    omega
  · intro r hr
    rw [payroll_keyIs_save_base]
    simp only [Payroll.keyIs, Bool.and_eq_true, beq_iff_eq] at hr
    simp only [Payroll.keyIs, Bool.and_eq_false_iff, beq_eq_false_iff_ne]
    omega
  · intro r hr
    simp only [Payroll.keyIs, Bool.and_eq_true, beq_iff_eq] at hr
    simp only [Payroll.keyIs, Bool.and_eq_false_iff, beq_eq_false_iff_ne]
    omega

theorem generateFold_filter_none (m y eid : Nat) :
    ∀ (es : List Employee) (db : List Payroll),
    (∀ x ∈ es, x.id = eid → x.salary_structure.base_salary = none) →
    (es.foldl (generateFor m y) db).filter (Payroll.keyIs eid m y)
      = db.filter (Payroll.keyIs eid m y) := by
  intro es
  induction es with
  | nil => intro db _; rfl
  | cons x t ih =>
    intro db hnone
    simp only [List.foldl_cons]
    rw [ih _ (fun z hz => hnone z (List.mem_cons_of_mem x hz))]
    by_cases hid : x.id = eid
    · have hb := hnone x (List.mem_cons_self x t) hid
      simp [generateFor, hb]
    · cases hb : x.salary_structure.base_salary with
      | none => simp [generateFor, hb]
      | some b =>
        simp only [generateFor, hb]
        exact payrollUpsert_filter_ne _ _ _ _ _ _ _ _ (fun h => hid h.symm)

theorem generateFold_countBy_other (m y eid : Nat) :
    ∀ (es : List Employee) (db : List Payroll),
    (∀ x ∈ es, x.id ≠ eid) →
    countBy (Payroll.keyIs eid m y) (es.foldl (generateFor m y) db)
      = countBy (Payroll.keyIs eid m y) db := by
  intro es
  induction es with
  | nil => intro db _; rfl
  | cons x t ih =>
    intro db hne
    simp only [List.foldl_cons]
    rw [ih _ (fun z hz => hne z (List.mem_cons_of_mem x hz))]
    cases hb : x.salary_structure.base_salary with
    | none => simp [generateFor, hb]
    | some b =>
      simp only [generateFor, hb]
      exact payrollUpsert_countBy_ne _ _ _ _ _ _ _ _
        (fun h => hne x (List.mem_cons_self x t) h.symm)

theorem generateFold_wf (m y : Nat) :
    ∀ (es : List Employee) (db : List Payroll),
    (∀ eid, countBy (Payroll.keyIs eid m y) db ≤ 1) →
    ∀ eid, countBy (Payroll.keyIs eid m y) (es.foldl (generateFor m y) db) ≤ 1 := by
  intro es
  induction es with
  | nil => intro db hdb; exact hdb
  | cons x t ih =>
    intro db hdb
    simp only [List.foldl_cons]
    apply ih
    cases hb : x.salary_structure.base_salary with
    | none => simpa [generateFor, hb] using hdb
    | some b =>
      simp only [generateFor, hb]
      exact payrollUpsert_wf _ _ _ _ _ _ _ hdb

theorem generateFold_spec (m y : Nat) :
    ∀ (es : List Employee) (db : List Payroll),
    (∀ eid, countBy (Payroll.keyIs eid m y) db ≤ 1) →
    es.Pairwise (fun a b => a.id ≠ b.id) →
    ∀ e ∈ es, ∀ b, e.salary_structure.base_salary = some b →
      countBy (Payroll.keyIs e.id m y) (es.foldl (generateFor m y) db) = 1
      ∧ ∀ p ∈ es.foldl (generateFor m y) db, Payroll.keyIs e.id m y p = true →
          p.base_salary = b ∧ p.allowances = e.salary_structure.allowances.getD 0
          ∧ p.deductions = e.salary_structure.deductions.getD 0
          ∧ p.net_salary = b + e.salary_structure.allowances.getD 0
              - e.salary_structure.deductions.getD 0 := by
  intro es
  induction es with
  | nil => intro db _ _ e he; exact absurd he (List.not_mem_nil e)
  | cons x t ih =>
    intro db hdb hpw e he b hb
    obtain ⟨hxt, hpwt⟩ := List.pairwise_cons.mp hpw
    simp only [List.foldl_cons]
    rcases List.mem_cons.mp he with rfl | het
    · constructor
      · rw [generateFold_countBy_other m y e.id t _ (fun z hz h => hxt z hz h.symm)]
        simp only [generateFor, hb]
        exact payrollUpsert_countBy _ _ _ _ _ _ _ (hdb e.id)
      · intro p hp hkey
        have hfil := generateFold_filter_none m y e.id t (generateFor m y db e)
          (fun z hz hzid => absurd hzid.symm (hxt z hz))
        have hpmem : p ∈ (generateFor m y db e).filter (Payroll.keyIs e.id m y) := by
          rw [← hfil]
          exact List.mem_filter.mpr ⟨hp, hkey⟩
        obtain ⟨hp', hkey'⟩ := List.mem_filter.mp hpmem
        simp only [generateFor, hb] at hp'
        exact payrollUpsert_values _ _ _ _ _ _ _ p hp' hkey'
    · refine ih (generateFor m y db x) ?_ hpwt e het b hb
      intro eid
      cases hbx : x.salary_structure.base_salary with
      | none => simpa [generateFor, hbx] using hdb eid
      | some bx =>
        simp only [generateFor, hbx]
        exact payrollUpsert_wf _ _ _ _ _ _ _ hdb eid

/-- C9: for a period (month, year), generation leaves at most one payroll
row per (employee, month, year) key; every role-EMPLOYEE user with a
`base_salary` in the structure ends with exactly one row whose amounts are
copied from the current structure (net derived at write time); users
without a `base_salary` are skipped and their rows for the period are left
untouched; and re-running with changed structures still leaves exactly one
row per employee, carrying the latest run's values (idempotent upsert).
Pairwise-distinct ids model the user table's primary key; the count bound
models the payroll `unique_together` constraint. -/
theorem admin_generate_payroll_spec (emps emps2 : List Employee) (m y : Nat)
    (db : List Payroll)
    (hwf : ∀ eid, countBy (Payroll.keyIs eid m y) db ≤ 1)
    (hids : emps.Pairwise (fun a b => a.id ≠ b.id))
    (hids2 : emps2.Pairwise (fun a b => a.id ≠ b.id)) :
    (∀ eid, countBy (Payroll.keyIs eid m y) (admin_generate_payroll emps m y db) ≤ 1)
    ∧ (∀ e ∈ emps, e.role = "EMPLOYEE" → ∀ b, e.salary_structure.base_salary = some b →
        countBy (Payroll.keyIs e.id m y) (admin_generate_payroll emps m y db) = 1
        ∧ ∀ p ∈ admin_generate_payroll emps m y db, Payroll.keyIs e.id m y p = true →
            p.base_salary = b
            ∧ p.allowances = e.salary_structure.allowances.getD 0
            ∧ p.deductions = e.salary_structure.deductions.getD 0
            ∧ p.net_salary = b + e.salary_structure.allowances.getD 0
                - e.salary_structure.deductions.getD 0)
    ∧ (∀ e ∈ emps, e.salary_structure.base_salary = none →
        (admin_generate_payroll emps m y db).filter (Payroll.keyIs e.id m y)
          = db.filter (Payroll.keyIs e.id m y))
    ∧ (∀ e ∈ emps2, e.role = "EMPLOYEE" → ∀ b, e.salary_structure.base_salary = some b →
        countBy (Payroll.keyIs e.id m y)
          (admin_generate_payroll emps2 m y (admin_generate_payroll emps m y db)) = 1
        ∧ ∀ p ∈ admin_generate_payroll emps2 m y (admin_generate_payroll emps m y db),
            Payroll.keyIs e.id m y p = true →
              p.base_salary = b
              ∧ p.net_salary = b + e.salary_structure.allowances.getD 0
                  - e.salary_structure.deductions.getD 0) := by
  have hSym : Symmetric (fun (a b : Employee) => a.id ≠ b.id) :=
    fun a b h => fun he => h he.symm
  have hfilpw : (emps.filter (fun e => e.role == "EMPLOYEE")).Pairwise
      (fun a b => a.id ≠ b.id) := hids.sublist (List.filter_sublist _)
  have hfilpw2 : (emps2.filter (fun e => e.role == "EMPLOYEE")).Pairwise
      (fun a b => a.id ≠ b.id) := hids2.sublist (List.filter_sublist _)
  have hwf1 : ∀ eid, countBy (Payroll.keyIs eid m y)
      (admin_generate_payroll emps m y db) ≤ 1 :=
    generateFold_wf m y _ db hwf
  refine ⟨hwf1, ?_, ?_, ?_⟩
  · intro e he hrole b hb
    have hemem : e ∈ emps.filter (fun e => e.role == "EMPLOYEE") :=
      List.mem_filter.mpr ⟨he, by rw [hrole]; decide⟩
    exact generateFold_spec m y _ db hwf hfilpw e hemem b hb
  · intro e he hb
    apply generateFold_filter_none
    intro x hx hxid
    have hxmem : x ∈ emps := List.mem_of_mem_filter hx
    by_cases hxe : x = e
    · rw [hxe]; exact hb
    · exact absurd hxid (hids.forall hSym hxmem he hxe)
  · intro e he hrole b hb
    have hemem : e ∈ emps2.filter (fun e => e.role == "EMPLOYEE") :=
      List.mem_filter.mpr ⟨he, by rw [hrole]; decide⟩
    obtain ⟨hcnt, hvals⟩ :=
      generateFold_spec m y _ (admin_generate_payroll emps m y db) hwf1 hfilpw2 e hemem b hb
    exact ⟨hcnt, fun p hp hk => ⟨(hvals p hp hk).1, (hvals p hp hk).2.2.2⟩⟩

/-- Instantiation of `admin_generate_payroll_spec` for March 2024: one
run over employees 1 (base 1000/allow 100/ded 50) and 2 (no base) yields
one row for employee 1 with net 1050; a second run after raising employee
1's base to 2000 still yields one row, now with net 2050. -/
theorem admin_generate_payroll_spec_witness :
    (countBy (Payroll.keyIs empWithSalary.id 3 2024)
        (admin_generate_payroll [empWithSalary, empNoSalary] 3 2024 []) = 1
      ∧ ∀ p ∈ admin_generate_payroll [empWithSalary, empNoSalary] 3 2024 [],
          Payroll.keyIs empWithSalary.id 3 2024 p = true →
            p.base_salary = 1000
            ∧ p.allowances = empWithSalary.salary_structure.allowances.getD 0
            ∧ p.deductions = empWithSalary.salary_structure.deductions.getD 0
            ∧ p.net_salary = 1000 + empWithSalary.salary_structure.allowances.getD 0
                - empWithSalary.salary_structure.deductions.getD 0)
    ∧ (countBy (Payroll.keyIs empWithRaisedSalary.id 3 2024)
        (admin_generate_payroll [empWithRaisedSalary, empNoSalary] 3 2024
          (admin_generate_payroll [empWithSalary, empNoSalary] 3 2024 [])) = 1
      ∧ ∀ p ∈ admin_generate_payroll [empWithRaisedSalary, empNoSalary] 3 2024
            (admin_generate_payroll [empWithSalary, empNoSalary] 3 2024 []),
          Payroll.keyIs empWithRaisedSalary.id 3 2024 p = true →
            p.base_salary = 2000
            ∧ p.net_salary = 2000 + empWithRaisedSalary.salary_structure.allowances.getD 0
                - empWithRaisedSalary.salary_structure.deductions.getD 0) := by
  have h := admin_generate_payroll_spec [empWithSalary, empNoSalary]
    [empWithRaisedSalary, empNoSalary] 3 2024 []
    (fun eid => Nat.zero_le 1) (by decide) (by decide)
  exact ⟨h.2.1 empWithSalary (List.mem_cons_self _ _) rfl 1000 rfl,
    h.2.2.2 empWithRaisedSalary (List.mem_cons_self _ _) rfl 2000 rfl⟩
